import Mathlib

/-!
# Verification of the extractive text summarizer

Shallow embedding of `summarize(text, p, scoring)` from
`posts/text-summarizer.ipynb` (a Python 2.7 notebook) and proofs about it.

Modelling decisions, stated once here:

* The sentence segmenter (`TextBlob(text).sentences`) is an external
  collaborator; the embedding takes the segmented sentence list directly.
* `sklearn`'s `TfidfVectorizer(stop_words='english')` and
  `CountVectorizer(stop_words='english')` and `scipy`'s metric functions are
  external libraries, modelled as fields of a `SklearnModel` parameter
  together with the interface guarantees the proofs use (one matrix row per
  input sentence; `fit_transform` raises `ValueError` exactly when the
  extracted vocabulary is empty, in particular on an empty document).
  A small concrete instance (`miniSk`) is provided so that theorems can be
  exercised on closed inputs.
* Python numbers are modelled exactly: `int` as `ℤ`, `float` as `ℚ`
  (binary-float rounding of inputs is abstracted away; no claim below hinges
  on it).  Python 2's `round` rounds half away from zero.  NaN floats are
  modelled as `none : Option ℚ`, whose comparisons are always false, exactly
  like NaN.
* `sorted(..., key=..., reverse=True)` is Python's stable sort run
  descending on the key (CPython documents that `reverse=True` preserves
  stability); it is modelled by Mathlib's stable `List.insertionSort` with
  the matching relation.  `l[:p]` with an `int` bound clamps like Python
  slicing; with a `float` bound it raises `TypeError`, as CPython 2.7 does.
-/

namespace TextSummarizer

attribute [local semireducible] Rat.add Rat.sub Rat.mul Rat.inv Rat.ofScientific

/-- The Python exceptions that calls inside `summarize` can raise:
`ValueError("empty vocabulary ...")` from `fit_transform`,
`ValueError("Unknown Distance Metric ...")` from `pdist`, and
`TypeError("slice indices must be integers ...")` from `top_sentences[:p]`
when `p` is a float. -/
inductive PyErr where
  | emptyVocabulary
  | unknownMetric (name : String)
  | floatSliceIndex
deriving DecidableEq, Repr

/-- A Python number: an `int` or a `float` (floats modelled as exact
rationals). -/
inductive PyNum where
  | int (z : ℤ)
  | float (x : ℚ)
deriving DecidableEq, Repr

/-- Numeric value of a Python number. -/
def PyNum.toRat : PyNum → ℚ
  | .int z => (z : ℚ)
  | .float x => x

/-- The test `p < 1` of the source. -/
def PyNum.lt1 : PyNum → Bool
  | .int z => decide (z < 1)
  | .float x => decide (x < 1)

/-- Python 2's `round`: nearest integer, ties away from zero.  (Written
with `Rat.floor`, which the kernel can evaluate; `Rat.floor q = ⌊q⌋`.) -/
def pyRound (q : ℚ) : ℤ :=
  if q - (q.floor : ℚ) < 1/2 then q.floor
  else if 1/2 < q - (q.floor : ℚ) then q.floor + 1
  else if 0 ≤ q then q.floor + 1 else q.floor

/-- `if p < 1: p = int(round(p*len(blob.sentences)))` — the length
resolution step of the source. -/
def resolveP (p : PyNum) (n : Nat) : PyNum :=
  if p.lt1 then .int (pyRound (p.toRat * n)) else p

/-- A `(sentence index, score)` pair as appended to `scores`; the score is
`none` when the Python value would be NaN. -/
abbrev ScoreEntry := Nat × Option ℚ

/-- Python `<` on possibly-NaN floats: every comparison against NaN is
false. -/
def pyLtB : Option ℚ → Option ℚ → Bool
  | some x, some y => decide (x < y)
  | _, _ => false

/-- Python `<` on `(int, float)` tuples: compares first components, and
second components only when the first are equal. -/
def pairLtB (a b : ScoreEntry) : Bool :=
  if a.1 = b.1 then pyLtB a.2 b.2 else decide (a.1 < b.1)

/-- The ordering a stable descending sort keeps: `a` may stay before `b`
unless `a`'s key is strictly below `b`'s. -/
def descLe (a b : ScoreEntry) : Prop := pyLtB a.2 b.2 = false

instance : DecidableRel descLe := fun _ _ => instDecidableEqBool _ false

/-- The ordering a stable ascending sort keeps: `a` may stay before `b`
unless `b` compares strictly below `a`. -/
def ascLe (a b : ScoreEntry) : Prop := pairLtB b a = false

instance : DecidableRel ascLe := fun _ _ => instDecidableEqBool _ false

/-- `sorted(scores, key=lambda x: x[1], reverse=True)`: the stable
descending sort on scores. -/
def pySortDesc (l : List ScoreEntry) : List ScoreEntry :=
  List.insertionSort descLe l

/-- `sorted(summary)`: the stable ascending sort under tuple comparison. -/
def pySortAsc (l : List ScoreEntry) : List ScoreEntry :=
  List.insertionSort ascLe l

/-- `l[:p]`.  An `int` bound slices with Python clamping (a negative bound
`k` stops at `max(len(l)+k, 0)`); a `float` bound raises `TypeError`, as in
CPython 2.7. -/
def pySliceTo (l : List ScoreEntry) : PyNum → Except PyErr (List ScoreEntry)
  | .int k => .ok (if 0 ≤ k then l.take k.toNat else l.take (l.length - (-k).toNat))
  | .float _ => .error .floatSliceIndex

/-- `np.nanmean` of one matrix row: the mean of the defined (non-NaN)
entries, NaN (`none`) when there are none. -/
def nanmean (row : List (Option ℚ)) : Option ℚ :=
  let v := row.filterMap id
  if v.length = 0 then none else some (v.sum / (v.length : ℚ))

/-- `squareform(pdist(rows, metric))`: the full pairwise distance matrix.
`pdist` evaluates the metric on each pair `i < j`; `squareform` mirrors it
and fills the diagonal with `0`. -/
def squareD (d : List ℚ → List ℚ → Option ℚ) (rows : List (List ℚ)) :
    List (List (Option ℚ)) :=
  (List.range rows.length).map fun i =>
    (List.range rows.length).map fun j =>
      if i = j then some 0
      else if i < j then d (rows.getD i []) (rows.getD j [])
      else d (rows.getD j []) (rows.getD i [])

/-- The metric names accepted by `pdist`, as enumerated in the source's
docstring. -/
def pdistMetrics : List String :=
  ["braycurtis", "canberra", "chebyshev", "cityblock", "correlation",
   "cosine", "dice", "euclidean", "hamming", "jaccard", "kulsinski",
   "mahalanobis", "matching", "minkowski", "rogerstanimoto", "russellrao",
   "seuclidean", "sokalmichener", "sokalsneath", "sqeuclidean", "yule"]

/-- Model of the external libraries used by `summarize`: the two sklearn
vectorizers (as row-per-sentence matrices), the vectorizers' error
condition (`fit_transform` raises `ValueError` iff the vocabulary extracted
from the sentences is empty — both vectorizers share tokenizer and stopword
list, hence the condition), and scipy's metric functions (`none` models a
NaN distance). -/
structure SklearnModel where
  tfidfMatrix : List String → List (List ℚ)
  countMatrix : List String → List (List ℚ)
  vocabEmpty : List String → Bool
  dist : String → List ℚ → List ℚ → Option ℚ
  tfidfMatrix_length : ∀ ss, (tfidfMatrix ss).length = ss.length
  countMatrix_length : ∀ ss, (countMatrix ss).length = ss.length
  vocabEmpty_nil : vocabEmpty [] = true

/-- The score-building phase of `summarize`: the branch on `scoring`,
building `scores` as an index/score list.  Library errors are raised in
source order: `fit_transform` before `pdist`. -/
def scoresOf (E : SklearnModel) (sentences : List String) (scoring : String) :
    Except PyErr (List ScoreEntry) :=
  if scoring = "sum" then
    if E.vocabEmpty sentences then .error .emptyVocabulary
    else .ok ((E.tfidfMatrix sentences).enum.map fun r => (r.1, some r.2.sum))
  else
    if E.vocabEmpty sentences then .error .emptyVocabulary
    else if scoring ∈ pdistMetrics then
      .ok ((squareD (E.dist scoring) (E.countMatrix sentences)).enum.map
        fun r => (r.1, nanmean r.2))
    else .error (.unknownMetric scoring)

/-- `summarize` up to (and including) the chronological re-sort: resolve
the length, build the scores, sort them descending, slice off the top `p`,
and re-sort the slice by tuple order.  Returns the selected
`(index, score)` entries. -/
def summarizeSel (E : SklearnModel) (sentences : List String) (p : PyNum)
    (scoring : String) : Except PyErr (List ScoreEntry) :=
  match scoresOf E sentences scoring with
  | .error e => .error e
  | .ok scores =>
    match pySliceTo (pySortDesc scores) (resolveP p sentences.length) with
    | .error e => .error e
    | .ok sliced => .ok (pySortAsc sliced)

/-- The full `summarize`: the selected sentences concatenated in list
order with no separator (`TextBlob.__add__` concatenates raw strings). -/
def summarize (E : SklearnModel) (sentences : List String) (p : PyNum)
    (scoring : String) : Except PyErr String :=
  (summarizeSel E sentences p scoring).map fun sel =>
    String.join (sel.map fun e => sentences.getD e.1 "")

/-! ## A concrete instance of the external libraries

A miniature of sklearn's vectorizers, used to run the theorems on closed
inputs: lowercase, tokens are maximal letter runs of length ≥ 2 (sklearn's
default token pattern), a representative subset of sklearn's English
stopword list, vocabulary = distinct remaining tokens, count matrix over
it.  The tf-idf field reuses the count matrix: genuine tf-idf values are
irrational (logarithms and L2 normalisation) and no theorem in this file
depends on the tf-idf values — only on the row count, which this instance
gets right. -/

/-- A representative subset of sklearn's `ENGLISH_STOP_WORDS`. -/
def miniStopwords : List String :=
  ["the", "a", "an", "and", "of", "to", "in", "it", "was", "is", "on",
   "at", "he", "she", "they", "this", "that"]

/-- ASCII lower-casing of one character. -/
def asciiLower (c : Char) : Char :=
  if 65 ≤ c.toNat ∧ c.toNat ≤ 90 then Char.ofNat (c.toNat + 32) else c

/-- Splits a character stream into maximal lowercased letter runs; the
second argument accumulates the current run in reverse. -/
def tokenizeAux : List Char → List Char → List (List Char)
  | [], cur => if cur.isEmpty then [] else [cur.reverse]
  | c :: cs, cur =>
    if c.isAlpha then tokenizeAux cs (asciiLower c :: cur)
    else if cur.isEmpty then tokenizeAux cs []
    else cur.reverse :: tokenizeAux cs []

/-- Tokenizer model: lowercase, maximal letter runs of length at least
two (sklearn's default token pattern keeps only tokens of length ≥ 2). -/
def tokenize (s : String) : List String :=
  ((tokenizeAux s.data []).filter fun t => 2 ≤ t.length).map List.asString

/-- Vocabulary: distinct non-stopword tokens over all sentences. -/
def vocabOf (ss : List String) : List String :=
  ((ss.map tokenize).flatten.filter fun t => !miniStopwords.contains t).eraseDups

/-- One count-matrix row: occurrences of each vocabulary term. -/
def countRow (vocab : List String) (s : String) : List ℚ :=
  vocab.map fun t => ((tokenize s).count t : ℚ)

/-- The count matrix of a sentence list. -/
def countsOf (ss : List String) : List (List ℚ) :=
  ss.map (countRow (vocabOf ss))

/-- The cityblock (Manhattan) metric, one of scipy's rational-valued
metrics; it is never NaN. -/
def cityblock (u v : List ℚ) : Option ℚ :=
  some (((u.zip v).map fun p => |p.1 - p.2|).sum)

/-- The concrete library instance used for closed-input runs. -/
def miniSk : SklearnModel where
  tfidfMatrix := countsOf
  countMatrix := countsOf
  vocabEmpty := fun ss => (vocabOf ss).isEmpty
  dist := fun name u v => if name = "cityblock" then cityblock u v else some 0
  tfidfMatrix_length := fun ss => by simp [countsOf]
  countMatrix_length := fun ss => by simp [countsOf]
  vocabEmpty_nil := by decide

example : vocabOf ["Cats meow.", "Dogs bark."] = ["cats", "meow", "dogs", "bark"] := by
  decide

example : tokenize "The cat sat." = ["the", "cat", "sat"] := by decide

example : vocabOf ["The of and."] = [] := by decide

example : pyRound (2/5 * 10) = 4 := by decide

example : pyRound (1/2) = 1 := by decide

example : pyRound (-1/2) = -1 := by decide

example : pyRound (5/2) = 3 := by decide

/-! ## Basic lemmas -/

theorem ratFloor_eq_intFloor (q : ℚ) : (Rat.floor q : ℤ) = ⌊q⌋ :=
  (Rat.floor_def' q).trans Rat.floor_def.symm

theorem pyRound_nonneg {q : ℚ} (h : 0 ≤ q) : 0 ≤ pyRound q := by
  have hf : (0 : ℤ) ≤ q.floor := by
    rw [ratFloor_eq_intFloor]; exact Int.floor_nonneg.mpr h
  unfold pyRound
  split_ifs <;> omega

theorem pyRound_nonpos {q : ℚ} (h : q ≤ 0) : pyRound q ≤ 0 := by
  have hf : q.floor ≤ 0 := by
    rw [ratFloor_eq_intFloor]; exact Int.floor_nonpos h
  have hle : ((q.floor : ℤ) : ℚ) ≤ q := by
    rw [ratFloor_eq_intFloor]; exact Int.floor_le q
  unfold pyRound
  split_ifs with h1 h2 h3
  · exact hf
  · have hcast : ((q.floor : ℤ) : ℚ) < 0 := by linarith
    have : q.floor < 0 := by exact_mod_cast hcast
    omega
  · have hq0 : q = 0 := le_antisymm h h3
    subst hq0
    have hz : (0 : ℚ).floor = 0 := by
      rw [ratFloor_eq_intFloor]; exact Int.floor_zero
    rw [hz] at h1
    norm_num at h1
  · exact hf

theorem lt1_of_toRat_lt_one {p : PyNum} (h : p.toRat < 1) : p.lt1 = true := by
  cases p with
  | int z =>
    simp only [PyNum.toRat] at h
    have : z < 1 := by exact_mod_cast h
    simp [PyNum.lt1, this]
  | float x => simp_all [PyNum.lt1, PyNum.toRat]

theorem pyLtB_irrefl (o : Option ℚ) : pyLtB o o = false := by
  cases o <;> simp [pyLtB]

theorem pySortDesc_perm (l : List ScoreEntry) : List.Perm (pySortDesc l) l :=
  List.perm_insertionSort descLe l

theorem pySortAsc_perm (l : List ScoreEntry) : List.Perm (pySortAsc l) l :=
  List.perm_insertionSort ascLe l

/-! ## The order established by the two sorts -/

/-- The strict "ranks above" order of the selection step: strictly larger
score, or equal score and smaller original index. -/
def scoreGT (a b : ScoreEntry) : Prop :=
  pyLtB b.2 a.2 = true ∨ (a.2 = b.2 ∧ a.1 < b.1)

theorem orderedInsertDesc_pairwise (a : ScoreEntry) (m : List ScoreEntry)
    (hm : ∀ b ∈ m, a.1 < b.1 ∧ b.2.isSome) (ha : a.2.isSome)
    (hp : m.Pairwise scoreGT) :
    (List.orderedInsert descLe a m).Pairwise scoreGT := by
  obtain ⟨x, hx⟩ := Option.isSome_iff_exists.mp ha
  induction m with
  | nil => simp [List.orderedInsert, List.Pairwise.nil]
  | cons b bs ih =>
    obtain ⟨hab, hbs⟩ := hm b (List.mem_cons_self b bs)
    obtain ⟨y, hy⟩ := Option.isSome_iff_exists.mp hbs
    rw [List.orderedInsert]
    by_cases h : descLe a b
    · rw [if_pos h]
      have hyx : y ≤ x := by
        unfold descLe at h
        rw [hx, hy] at h
        simp only [pyLtB, decide_eq_false_iff_not] at h
        exact le_of_not_lt h
      constructor
      · intro c hc
        rcases List.mem_cons.mp hc with rfl | hcbs
        · rcases lt_or_eq_of_le hyx with hlt | heq
          · left; rw [hx, hy]; simp [pyLtB, hlt]
          · right; exact ⟨by rw [hx, hy, heq], hab⟩
        · have hgc := List.rel_of_pairwise_cons hp hcbs
          obtain ⟨hac, hcs⟩ := hm c (List.mem_cons_of_mem _ hcbs)
          obtain ⟨z, hz⟩ := Option.isSome_iff_exists.mp hcs
          have hzy : z ≤ y := by
            rcases hgc with hlt | ⟨heq, _⟩
            · rw [hy, hz] at hlt
              simp only [pyLtB, decide_eq_true_eq] at hlt
              exact le_of_lt hlt
            · rw [hy, hz] at heq
              exact le_of_eq (Option.some.inj heq).symm
          rcases lt_or_eq_of_le (hzy.trans hyx) with hlt | heq
          · left; rw [hx, hz]; simp [pyLtB, hlt]
          · right; exact ⟨by rw [hx, hz, heq], hac⟩
      · exact hp
    · rw [if_neg h]
      have hxy : x < y := by
        unfold descLe at h
        rw [hx, hy] at h
        simpa [pyLtB] using h
      constructor
      · intro c hc
        rcases (List.mem_orderedInsert descLe).mp hc with rfl | hcbs
        · left; rw [hx, hy]; simp [pyLtB, hxy]
        · exact List.rel_of_pairwise_cons hp hcbs
      · exact ih (fun c hc => hm c (List.mem_cons_of_mem _ hc)) hp.of_cons

theorem orderedInsertAsc_pairwise (a : ScoreEntry) (m : List ScoreEntry)
    (hm : ∀ b ∈ m, a.1 ≠ b.1)
    (hp : m.Pairwise fun x y => x.1 < y.1) :
    (List.orderedInsert ascLe a m).Pairwise fun x y => x.1 < y.1 := by
  induction m with
  | nil => simp [List.orderedInsert, List.Pairwise.nil]
  | cons b bs ih =>
    have hab : a.1 ≠ b.1 := hm b (List.mem_cons_self b bs)
    rw [List.orderedInsert]
    by_cases h : ascLe a b
    · rw [if_pos h]
      have haltb : a.1 < b.1 := by
        unfold ascLe pairLtB at h
        rw [if_neg (Ne.symm hab)] at h
        simp only [decide_eq_false_iff_not] at h
        omega
      constructor
      · intro c hc
        rcases List.mem_cons.mp hc with rfl | hcbs
        · exact haltb
        · exact haltb.trans (List.rel_of_pairwise_cons hp hcbs)
      · exact hp
    · rw [if_neg h]
      have hblta : b.1 < a.1 := by
        unfold ascLe pairLtB at h
        rw [if_neg (Ne.symm hab)] at h
        simpa using h
      constructor
      · intro c hc
        rcases (List.mem_orderedInsert ascLe).mp hc with rfl | hcbs
        · exact hblta
        · exact List.rel_of_pairwise_cons hp hcbs
      · exact ih (fun c hc => hm c (List.mem_cons_of_mem _ hc)) hp.of_cons

/-- The descending sort orders entries by `scoreGT`: strictly larger score
first, ties by smaller original index first (stability), provided the
input's indices are strictly increasing and its scores defined. -/
theorem pySortDesc_pairwise (l : List ScoreEntry)
    (hidx : l.Pairwise fun x y => x.1 < y.1)
    (hdef : ∀ e ∈ l, e.2.isSome) :
    (pySortDesc l).Pairwise scoreGT := by
  unfold pySortDesc
  induction l with
  | nil => simp [List.Pairwise.nil]
  | cons a as ih =>
    rw [List.insertionSort]
    apply orderedInsertDesc_pairwise
    · intro b hb
      have hbas : b ∈ as := ((List.perm_insertionSort descLe as).mem_iff).mp hb
      exact ⟨List.rel_of_pairwise_cons hidx hbas,
        hdef b (List.mem_cons_of_mem _ hbas)⟩
    · exact hdef a (List.mem_cons_self a as)
    · exact ih hidx.of_cons (fun e he => hdef e (List.mem_cons_of_mem _ he))

/-- The final ascending sort leaves the indices strictly increasing, for
any input whose indices are distinct. -/
theorem pySortAsc_pairwise (l : List ScoreEntry)
    (h : (l.map Prod.fst).Nodup) :
    (pySortAsc l).Pairwise fun x y => x.1 < y.1 := by
  unfold pySortAsc
  induction l with
  | nil => simp [List.Pairwise.nil]
  | cons a as ih =>
    rw [List.map, List.nodup_cons] at h
    rw [List.insertionSort]
    apply orderedInsertAsc_pairwise
    · intro b hb heq
      have hbas : b ∈ as := ((List.perm_insertionSort ascLe as).mem_iff).mp hb
      exact h.1 (by rw [heq]; exact List.mem_map_of_mem Prod.fst hbas)
    · exact ih h.2

/-- In a pairwise-ordered list, every element of `take k` is related to
every element of `drop k`. -/
theorem pairwise_take_drop {α : Type} {R : α → α → Prop} {l : List α}
    {k : Nat} {x y : α} (h : l.Pairwise R) (hx : x ∈ l.take k)
    (hy : y ∈ l.drop k) : R x y := by
  have h2 : (l.take k ++ l.drop k).Pairwise R := by
    rw [List.take_append_drop]; exact h
  exact (List.pairwise_append.mp h2).2.2 x hx y hy

/-! ## Structure of the score list -/

theorem enum_map_fst' {α : Type} (l : List α) :
    l.enum.map Prod.fst = List.range l.length := by
  rw [List.enum_eq_enumFrom, List.enumFrom_map_fst, List.range_eq_range']

theorem snd_mem_of_mem_enum {α : Type} {r : Nat × α} {l : List α}
    (h : r ∈ l.enum) : r.2 ∈ l := by
  obtain ⟨i, x⟩ := r
  rw [List.enum_eq_enumFrom, List.enumFrom_eq_zip_range'] at h
  exact (List.of_mem_zip h).2

theorem squareD_length (d : List ℚ → List ℚ → Option ℚ)
    (rows : List (List ℚ)) : (squareD d rows).length = rows.length := by
  simp [squareD]

/-- Every row of the distance matrix contains its diagonal entry, which
`squareform` sets to `0` — never NaN. -/
theorem squareD_diag_mem {d : List ℚ → List ℚ → Option ℚ}
    {rows : List (List ℚ)} {row : List (Option ℚ)}
    (h : row ∈ squareD d rows) : some 0 ∈ row := by
  unfold squareD at h
  obtain ⟨i, hi, rfl⟩ := List.mem_map.mp h
  exact List.mem_map.mpr ⟨i, hi, by simp⟩

/-- `np.nanmean` of a row with at least one defined entry is defined. -/
theorem nanmean_isSome_of_mem {row : List (Option ℚ)} {q : ℚ}
    (h : some q ∈ row) : (nanmean row).isSome := by
  unfold nanmean
  have hq : q ∈ row.filterMap id := List.mem_filterMap.mpr ⟨some q, h, rfl⟩
  have hne : row.filterMap id ≠ [] := List.ne_nil_of_mem hq
  rw [if_neg (by simpa [List.length_eq_zero] using hne)]
  rfl

theorem scoresOf_sum (E : SklearnModel) (ss : List String)
    (hv : E.vocabEmpty ss = false) :
    scoresOf E ss "sum" =
      .ok ((E.tfidfMatrix ss).enum.map fun r => (r.1, some r.2.sum)) := by
  simp [scoresOf, hv]

theorem scoresOf_dist (E : SklearnModel) (ss : List String) (scoring : String)
    (hv : E.vocabEmpty ss = false) (hns : scoring ≠ "sum")
    (hm : scoring ∈ pdistMetrics) :
    scoresOf E ss scoring =
      .ok ((squareD (E.dist scoring) (E.countMatrix ss)).enum.map
        fun r => (r.1, nanmean r.2)) := by
  simp [scoresOf, hv, hns, hm]

/-- Whenever the vocabulary is non-empty and the strategy recognized, the
score list is built successfully; its indices are `0, 1, …, n-1` in order
and every score is defined. -/
theorem scoresOf_ok_structure (E : SklearnModel) (ss : List String)
    (scoring : String) (hv : E.vocabEmpty ss = false)
    (hsc : scoring = "sum" ∨ scoring ∈ pdistMetrics) :
    ∃ scores, scoresOf E ss scoring = .ok scores ∧
      scores.map Prod.fst = List.range ss.length ∧
      (∀ e ∈ scores, e.2.isSome) := by
  by_cases hs : scoring = "sum"
  · subst hs
    refine ⟨_, scoresOf_sum E ss hv, ?_, ?_⟩
    · rw [List.map_map]
      have hcomp : (Prod.fst ∘ fun r : Nat × List ℚ => (r.1, some r.2.sum))
          = Prod.fst := rfl
      rw [hcomp, enum_map_fst', E.tfidfMatrix_length]
    · intro e he
      obtain ⟨r, _, rfl⟩ := List.mem_map.mp he
      rfl
  · have hm : scoring ∈ pdistMetrics := hsc.resolve_left hs
    refine ⟨_, scoresOf_dist E ss scoring hv hs hm, ?_, ?_⟩
    · rw [List.map_map]
      have hcomp : (Prod.fst ∘ fun r : Nat × List (Option ℚ) => (r.1, nanmean r.2))
          = Prod.fst := rfl
      rw [hcomp, enum_map_fst', squareD_length, E.countMatrix_length]
    · intro e he
      obtain ⟨r, hr, rfl⟩ := List.mem_map.mp he
      exact nanmean_isSome_of_mem (squareD_diag_mem (snd_mem_of_mem_enum hr))

theorem scoresOf_length {scores : List ScoreEntry} {n : Nat}
    (hfst : scores.map Prod.fst = List.range n) :
    scores.length = n := by
  have := congrArg List.length hfst
  simpa using this

/-- Inversion: whatever branch built a successful score list, its indices
are `0, 1, …, n-1` in order. -/
theorem scoresOf_ok_fst {E : SklearnModel} {ss : List String}
    {scoring : String} {scores : List ScoreEntry}
    (h : scoresOf E ss scoring = .ok scores) :
    scores.map Prod.fst = List.range ss.length := by
  unfold scoresOf at h
  by_cases h1 : scoring = "sum"
  · by_cases h2 : E.vocabEmpty ss = true
    · simp [h1, h2] at h
    · rw [Bool.not_eq_true] at h2
      simp only [h1, if_true, h2, Bool.false_eq_true, if_false,
        Except.ok.injEq] at h
      subst h
      rw [List.map_map]
      have hcomp : (Prod.fst ∘ fun r : Nat × List ℚ => (r.1, some r.2.sum))
          = Prod.fst := rfl
      rw [hcomp, enum_map_fst', E.tfidfMatrix_length]
  · by_cases h2 : E.vocabEmpty ss = true
    · simp [h1, h2] at h
    · rw [Bool.not_eq_true] at h2
      by_cases h3 : scoring ∈ pdistMetrics
      · simp only [h1, if_false, h2, Bool.false_eq_true, h3, if_true,
          Except.ok.injEq] at h
        subst h
        rw [List.map_map]
        have hcomp : (Prod.fst ∘ fun r : Nat × List (Option ℚ) =>
            (r.1, nanmean r.2)) = Prod.fst := rfl
        rw [hcomp, enum_map_fst', squareD_length, E.countMatrix_length]
      · simp [h1, h2, h3] at h

theorem scoresOf_err_of_vocabEmpty (E : SklearnModel) (ss : List String)
    (scoring : String) (hv : E.vocabEmpty ss = true) :
    scoresOf E ss scoring = .error .emptyVocabulary := by
  unfold scoresOf
  by_cases h1 : scoring = "sum" <;> simp [h1, hv]

theorem scoresOf_err_unknown (E : SklearnModel) (ss : List String)
    (scoring : String) (hv : E.vocabEmpty ss = false)
    (h1 : scoring ≠ "sum") (h2 : scoring ∉ pdistMetrics) :
    scoresOf E ss scoring = .error (.unknownMetric scoring) := by
  unfold scoresOf
  simp [h1, hv, h2]

/-! ## The selection pipeline -/

/-- The number of entries `l[:k]` keeps from a list of length `n`
(`k ≥ 0` clamps to `n` from above; `k < 0` stops at `max(n+k, 0)`). -/
def sliceLen (k : ℤ) (n : Nat) : Nat :=
  if 0 ≤ k then k.toNat else n - (-k).toNat

theorem summarizeSel_ok (E : SklearnModel) (ss : List String) (p : PyNum)
    (scoring : String) (scores : List ScoreEntry)
    (hok : scoresOf E ss scoring = .ok scores) (k : ℤ)
    (hk : resolveP p ss.length = .int k) :
    summarizeSel E ss p scoring =
      .ok (pySortAsc ((pySortDesc scores).take
        (sliceLen k (pySortDesc scores).length))) := by
  unfold summarizeSel
  rw [hok, hk]
  unfold pySliceTo sliceLen
  by_cases h : 0 ≤ k
  · simp [h]
  · simp [h]

theorem summarizeSel_floatErr (E : SklearnModel) (ss : List String)
    (p : PyNum) (scoring : String) (x : ℚ)
    (hv : E.vocabEmpty ss = false)
    (hsc : scoring = "sum" ∨ scoring ∈ pdistMetrics)
    (hk : resolveP p ss.length = .float x) :
    summarizeSel E ss p scoring = .error .floatSliceIndex := by
  obtain ⟨scores, hok, _, _⟩ := scoresOf_ok_structure E ss scoring hv hsc
  unfold summarizeSel
  rw [hok, hk]
  rfl

/-- Master length law: with a non-empty vocabulary, a recognized strategy
and an integer resolved length `k`, the selection returns
`min(k, n)` entries for `k ≥ 0` and `max(n+k, 0)` entries for `k < 0`. -/
theorem summarizeSel_length (E : SklearnModel) (ss : List String)
    (p : PyNum) (scoring : String) (k : ℤ)
    (hv : E.vocabEmpty ss = false)
    (hsc : scoring = "sum" ∨ scoring ∈ pdistMetrics)
    (hk : resolveP p ss.length = .int k) :
    (summarizeSel E ss p scoring).map List.length =
      .ok (if 0 ≤ k then min k.toNat ss.length
           else ss.length - (-k).toNat) := by
  obtain ⟨scores, hok, hfst, _⟩ := scoresOf_ok_structure E ss scoring hv hsc
  have hlen : scores.length = ss.length := scoresOf_length hfst
  rw [summarizeSel_ok E ss p scoring scores hok k hk]
  have hslen : (pySortDesc scores).length = ss.length := by
    rw [(pySortDesc_perm scores).length_eq, hlen]
  simp only [Except.map]
  congr 1
  rw [(pySortAsc_perm _).length_eq, List.length_take, hslen]
  unfold sliceLen
  split_ifs with h
  · rfl
  · exact Nat.min_eq_left (Nat.sub_le _ _)

theorem resolveP_of_lt1 {p : PyNum} (n : Nat) (h : p.lt1 = true) :
    resolveP p n = .int (pyRound (p.toRat * n)) := by
  simp [resolveP, h]

theorem resolveP_of_not_lt1 {p : PyNum} (n : Nat) (h : p.lt1 = false) :
    resolveP p n = p := by
  simp [resolveP, h]

instance {ε α : Type} [DecidableEq ε] [DecidableEq α] :
    DecidableEq (Except ε α) := fun a b =>
  match a, b with
  | .ok x, .ok y =>
    if h : x = y then isTrue (h ▸ rfl)
    else isFalse fun hc => h (Except.ok.inj hc)
  | .error e, .error f =>
    if h : e = f then isTrue (h ▸ rfl)
    else isFalse fun hc => h (Except.error.inj hc)
  | .ok _, .error _ => isFalse fun hc => Except.noConfusion hc
  | .error _, .ok _ => isFalse fun hc => Except.noConfusion hc

/-- A successful slice is a prefix of its input. -/
theorem pySliceTo_ok_take {l : List ScoreEntry} {q : PyNum}
    {out : List ScoreEntry} (h : pySliceTo l q = .ok out) :
    ∃ m, out = l.take m := by
  cases q with
  | float x => exact absurd h (by simp [pySliceTo])
  | int k =>
    unfold pySliceTo at h
    simp only [Except.ok.injEq] at h
    by_cases hk : 0 ≤ k
    · rw [if_pos hk] at h; exact ⟨k.toNat, h.symm⟩
    · rw [if_neg hk] at h; exact ⟨_, h.symm⟩

/-! ## The claims -/

/-- C6: for every length specification and scoring strategy, a document
with zero sentences makes `summarize` raise: with no sentences the
vectorizer's vocabulary is empty and `fit_transform` raises the
empty-vocabulary `ValueError` (the error the specification calls
`EmptyDocumentError`), surfaced to the caller before any scoring, slicing
or assembly. -/
theorem C6_empty_document (E : SklearnModel) (p : PyNum) (scoring : String) :
    summarize E [] p scoring = .error .emptyVocabulary := by
  unfold summarize summarizeSel
  rw [scoresOf_err_of_vocabEmpty E [] scoring E.vocabEmpty_nil]
  rfl

theorem C6_witness :
    summarize miniSk [] (.int 1) "sum" = .error .emptyVocabulary :=
  C6_empty_document miniSk (.int 1) "sum"

/-- C4, counterexample to "for every document": on a document whose only
sentence consists of stopwords, `summarize` with the unrecognized strategy
"bogus" raises the vectorizer's empty-vocabulary error — not the
unknown-strategy error the claim demands — because `fit_transform` runs
before `pdist`. -/
theorem C4_counterexample :
    summarize miniSk ["The of and."] (.int 2) "bogus"
      = .error .emptyVocabulary := by decide

/-- C4 as amended: on every document with a non-empty extracted
vocabulary, a scoring value that is neither "sum" nor a recognized metric
name makes `summarize` raise the unknown-metric `ValueError` from `pdist`
(the spec's `UnknownStrategyError`), for every length specification, with
no partial result. -/
theorem C4_amended (E : SklearnModel) (ss : List String) (p : PyNum)
    (scoring : String) (hv : E.vocabEmpty ss = false)
    (h1 : scoring ≠ "sum") (h2 : scoring ∉ pdistMetrics) :
    summarize E ss p scoring = .error (.unknownMetric scoring) := by
  unfold summarize summarizeSel
  rw [scoresOf_err_unknown E ss scoring hv h1 h2]
  rfl

theorem C4_witness :
    miniSk.vocabEmpty ["Cats meow."] = false ∧
    ("bogus" : String) ≠ "sum" ∧ "bogus" ∉ pdistMetrics ∧
    summarize miniSk ["Cats meow."] (.int 1) "bogus"
      = .error (.unknownMetric "bogus") :=
  ⟨by decide, by decide, by decide,
    C4_amended miniSk ["Cats meow."] (.int 1) "bogus" (by decide) (by decide)
      (by decide)⟩

/-- C2: whenever `summarize` returns a summary, the original positions of
the selected sentences are strictly increasing: the selected entries have
pairwise-distinct indices and the final `sorted(summary)` orders them
ascending. -/
theorem C2_chronological (E : SklearnModel) (ss : List String) (p : PyNum)
    (scoring : String) (sel : List ScoreEntry)
    (h : summarizeSel E ss p scoring = .ok sel) :
    (sel.map Prod.fst).Pairwise (· < ·) := by
  unfold summarizeSel at h
  cases hS : scoresOf E ss scoring with
  | error e => rw [hS] at h; dsimp only at h; cases h
  | ok scores =>
    rw [hS] at h
    dsimp only at h
    cases hT : pySliceTo (pySortDesc scores) (resolveP p ss.length) with
    | error e => rw [hT] at h; dsimp only at h; cases h
    | ok sliced =>
      rw [hT] at h
      dsimp only at h
      simp only [Except.ok.injEq] at h
      subst h
      have hfst := scoresOf_ok_fst hS
      have hnodup : (scores.map Prod.fst).Nodup := by
        rw [hfst]; exact List.nodup_range _
      have hnodup2 : ((pySortDesc scores).map Prod.fst).Nodup :=
        ((pySortDesc_perm scores).map Prod.fst).nodup_iff.mpr hnodup
      have hnodup3 : (sliced.map Prod.fst).Nodup := by
        obtain ⟨m, rfl⟩ := pySliceTo_ok_take hT
        exact ((List.take_sublist m _).map Prod.fst).nodup hnodup2
      rw [List.pairwise_map]
      exact pySortAsc_pairwise sliced hnodup3

theorem C2_witness :
    summarizeSel miniSk ["Cats meow.", "Dogs bark.", "Birds sing."]
        (.int 2) "sum" = .ok [(0, some 2), (1, some 2)] ∧
    (([(0, some 2), (1, some 2)] : List ScoreEntry).map Prod.fst).Pairwise
      (· < ·) :=
  ⟨by decide,
    C2_chronological miniSk ["Cats meow.", "Dogs bark.", "Birds sing."]
      (.int 2) "sum" [(0, some 2), (1, some 2)] (by decide)⟩

/-- C1, counterexample: the input (non-empty document, positive length
specification `2.0`, recognized strategy "sum") is valid in the claim's
sense, yet `summarize` raises `TypeError` — `top_sentences[:p]` rejects a
float bound — instead of returning a summary of
`min(resolved_length, sentence_count)` sentences. -/
theorem C1_counterexample :
    summarize miniSk ["Cats meow.", "Dogs bark.", "Birds sing."]
      (.float 2) "sum" = .error .floatSliceIndex := by decide

/-- C1 as amended: for valid inputs whose length specification is
additionally fractional (`< 1`) or a Python `int` — and whose vocabulary
is non-empty, so vectorization succeeds — the number of selected sentences
is exactly `min(resolved_length, sentence_count)`. -/
theorem C1_amended (E : SklearnModel) (ss : List String) (p : PyNum)
    (scoring : String)
    (_hs : ss ≠ []) (hv : E.vocabEmpty ss = false)
    (hp : 0 < p.toRat)
    (hint : p.lt1 = true ∨ ∃ z : ℤ, p = .int z)
    (hsc : scoring = "sum" ∨ scoring ∈ pdistMetrics) :
    ∃ k : ℤ, resolveP p ss.length = .int k ∧ 0 ≤ k ∧
      (summarizeSel E ss p scoring).map List.length
        = .ok (min k.toNat ss.length) := by
  by_cases hlt : p.lt1 = true
  · have hk := resolveP_of_lt1 (p := p) ss.length hlt
    have hnn : 0 ≤ pyRound (p.toRat * ss.length) :=
      pyRound_nonneg (mul_nonneg (le_of_lt hp) (Nat.cast_nonneg _))
    refine ⟨pyRound (p.toRat * ss.length), hk, hnn, ?_⟩
    have hlen := summarizeSel_length E ss p scoring _ hv hsc hk
    rw [hlen, if_pos hnn]
  · rcases hint with h | ⟨z, rfl⟩
    · exact absurd h hlt
    · have hz : ¬ z < 1 := fun hc => hlt (by simp [PyNum.lt1, hc])
      have hfalse : (PyNum.int z).lt1 = false := by
        simp only [PyNum.lt1, decide_eq_false_iff_not]
        omega
      have hk : resolveP (.int z) ss.length = .int z :=
        resolveP_of_not_lt1 ss.length hfalse
      refine ⟨z, hk, by omega, ?_⟩
      have hlen := summarizeSel_length E ss (.int z) scoring z hv hsc hk
      rw [hlen, if_pos (by omega)]

theorem C1_witness :
    (["Cats meow.", "Dogs bark."] : List String) ≠ [] ∧
    miniSk.vocabEmpty ["Cats meow.", "Dogs bark."] = false ∧
    (0 : ℚ) < (PyNum.int 1).toRat ∧
    (∃ k : ℤ,
      resolveP (.int 1) (["Cats meow.", "Dogs bark."] : List String).length
          = .int k ∧ 0 ≤ k ∧
      (summarizeSel miniSk ["Cats meow.", "Dogs bark."] (.int 1) "sum").map
          List.length
        = .ok (min k.toNat
            (["Cats meow.", "Dogs bark."] : List String).length)) :=
  ⟨by decide, by decide, by decide,
    C1_amended miniSk ["Cats meow.", "Dogs bark."] (.int 1) "sum"
      (by decide) (by decide) (by decide) (Or.inr ⟨1, rfl⟩) (Or.inl rfl)⟩

/-- C3 (code bug): the spec's full-length idempotence call
`summarize(text, 1.0, "sum")` on a one-sentence document (resolved length
1 = sentence count) raises `TypeError` — `1.0 < 1` is false, so `p` stays
the float `1.0` and `top_sentences[:1.0]` rejects the float index —
instead of returning the whole document.  This contradicts the function's
own docstring, which admits a float `p` as "the number of sentences to be
returned". -/
theorem C3_code_bug_eval :
    summarize miniSk ["Dogs run fast."] (.float 1) "sum"
      = .error .floatSliceIndex := by decide

/-- C5, counterexample: a negative length specification raises nothing —
it resolves to `-1`, `top_sentences[:-1]` keeps all but one entry, and a
non-empty partial summary is returned, where the claim demands
`InvalidLengthError` and no partial result. -/
theorem C5_counterexample :
    summarize miniSk ["Cats meow.", "Dogs bark."] (.float (-1/2)) "sum"
      = .ok "Cats meow." := by decide

/-- C5 as amended: a non-positive length specification raises no error:
it resolves to `k = int(round(spec×n)) ≤ 0`; `k = 0` yields the empty
summary, and `k < 0` silently yields the `max(n+k, 0)` top-scoring
sentences (Python's negative slicing). -/
theorem C5_amended (E : SklearnModel) (ss : List String) (p : PyNum)
    (scoring : String)
    (hv : E.vocabEmpty ss = false)
    (hsc : scoring = "sum" ∨ scoring ∈ pdistMetrics)
    (hp : p.toRat ≤ 0) :
    ∃ k : ℤ, resolveP p ss.length = .int k ∧ k ≤ 0 ∧
      (k = 0 → (summarizeSel E ss p scoring).map List.length = .ok 0) ∧
      (k < 0 → (summarizeSel E ss p scoring).map List.length
        = .ok (ss.length - (-k).toNat)) := by
  have hlt : p.lt1 = true := lt1_of_toRat_lt_one (hp.trans_lt zero_lt_one)
  have hk := resolveP_of_lt1 (p := p) ss.length hlt
  have hmul : p.toRat * (ss.length : ℚ) ≤ 0 :=
    mul_nonpos_iff.mpr (Or.inr ⟨hp, Nat.cast_nonneg _⟩)
  have hknp : pyRound (p.toRat * ss.length) ≤ 0 := pyRound_nonpos hmul
  refine ⟨_, hk, hknp, ?_, ?_⟩
  · intro h0
    have hlen := summarizeSel_length E ss p scoring _ hv hsc hk
    rw [hlen, h0]
    norm_num
  · intro hneg
    have hlen := summarizeSel_length E ss p scoring _ hv hsc hk
    rw [hlen, if_neg (by omega)]

theorem C5_witness :
    miniSk.vocabEmpty ["Cats meow.", "Dogs bark."] = false ∧
    (PyNum.float (-1/2)).toRat ≤ 0 ∧
    (∃ k : ℤ,
      resolveP (.float (-1/2)) (["Cats meow.", "Dogs bark."] :
          List String).length = .int k ∧ k ≤ 0 ∧
      (k = 0 → (summarizeSel miniSk ["Cats meow.", "Dogs bark."]
          (.float (-1/2)) "sum").map List.length = .ok 0) ∧
      (k < 0 → (summarizeSel miniSk ["Cats meow.", "Dogs bark."]
          (.float (-1/2)) "sum").map List.length
        = .ok ((["Cats meow.", "Dogs bark."] : List String).length
            - (-k).toNat))) :=
  ⟨by decide, by decide,
    C5_amended miniSk ["Cats meow.", "Dogs bark."] (.float (-1/2)) "sum"
      (by decide) (Or.inl rfl) (by decide)⟩

/-- C7, counterexample: the claim's own example — a length specification
of `2.5` should select `2` sentences — instead raises `TypeError`, since
the code never truncates a float `p ≥ 1` and `top_sentences[:2.5]` rejects
the float index. -/
theorem C7_counterexample :
    summarize miniSk ["Cats meow.", "Dogs bark.", "Birds sing."]
      (.float (5/2)) "sum" = .error .floatSliceIndex := by decide

/-- C7 as amended: a fractional specification `< 1` resolves to
`int(round(spec×n))` (Python 2 rounding, ties away from zero); an integer
specification `≥ 1` selects `min(spec, n)` sentences (clamping above
happens implicitly through slicing); a float specification `≥ 1` raises
`TypeError` instead of being truncated; and a negative resolved length `k`
is not clamped to `0` — it selects `max(n+k, 0)` sentences. -/
theorem C7_amended (E : SklearnModel) (ss : List String) (scoring : String)
    (hv : E.vocabEmpty ss = false)
    (hsc : scoring = "sum" ∨ scoring ∈ pdistMetrics) :
    (∀ q : ℚ, q < 1 →
      resolveP (.float q) ss.length = .int (pyRound (q * ss.length))) ∧
    (∀ z : ℤ, 1 ≤ z →
      (summarizeSel E ss (.int z) scoring).map List.length
        = .ok (min z.toNat ss.length)) ∧
    (∀ x : ℚ, 1 ≤ x →
      summarizeSel E ss (.float x) scoring = .error .floatSliceIndex) ∧
    (∀ q : ℚ, ∀ k : ℤ, q < 1 → pyRound (q * ss.length) = k → k < 0 →
      (summarizeSel E ss (.float q) scoring).map List.length
        = .ok (ss.length - (-k).toNat)) := by
  refine ⟨?_, ?_, ?_, ?_⟩
  · intro q hq
    exact resolveP_of_lt1 ss.length (by simp [PyNum.lt1, hq])
  · intro z hz
    have hk : resolveP (.int z) ss.length = .int z :=
      resolveP_of_not_lt1 ss.length
        (by simp only [PyNum.lt1, decide_eq_false_iff_not]; omega)
    have hlen := summarizeSel_length E ss (.int z) scoring z hv hsc hk
    rw [hlen, if_pos (by omega)]
  · intro x hx
    have hk : resolveP (.float x) ss.length = .float x :=
      resolveP_of_not_lt1 ss.length
        (by simp only [PyNum.lt1, decide_eq_false_iff_not]
            exact not_lt.mpr hx)
    exact summarizeSel_floatErr E ss (.float x) scoring x hv hsc hk
  · intro q k hq hkval hneg
    have hk : resolveP (.float q) ss.length = .int k := by
      rw [resolveP_of_lt1 ss.length (by simp [PyNum.lt1, hq])]
      rw [show (PyNum.float q).toRat = q from rfl, hkval]
    have hlen := summarizeSel_length E ss (.float q) scoring k hv hsc hk
    rw [hlen, if_neg (by omega)]

theorem C7_witness :
    miniSk.vocabEmpty ["Cats meow.", "Dogs bark."] = false ∧
    summarizeSel miniSk ["Cats meow.", "Dogs bark."] (.float (5/2)) "sum"
      = .error .floatSliceIndex :=
  ⟨by decide,
    (C7_amended miniSk ["Cats meow.", "Dogs bark."] "sum" (by decide)
        (Or.inl rfl)).2.2.1 (5/2) (by norm_num)⟩

/-- C8: under the pairwise-distance strategy the score of sentence `i` is
`np.nanmean` of row `i` of the squareform distance matrix — the mean of
its defined (non-NaN) entries.  Every row contains its diagonal entry,
which squareform sets to `0`, so every score is defined; consequently the
claim's two ranking rules for undefined-score sentences (below all defined
scores; among themselves by ascending position) hold — vacuously — for the
sorted list. -/
theorem C8_distance_scores (E : SklearnModel) (ss : List String)
    (scoring : String) (hv : E.vocabEmpty ss = false)
    (hns : scoring ≠ "sum") (hm : scoring ∈ pdistMetrics) :
    ∃ scores, scoresOf E ss scoring = .ok scores ∧
      scores = (squareD (E.dist scoring) (E.countMatrix ss)).enum.map
        (fun r => (r.1, nanmean r.2)) ∧
      (∀ e ∈ scores, e.2.isSome) ∧
      (pySortDesc scores).Pairwise (fun x y => x.2 = none → y.2 = none) ∧
      (pySortDesc scores).Pairwise
        (fun x y => x.2 = none → y.2 = none → x.1 < y.1) := by
  have hdef : ∀ e ∈ (squareD (E.dist scoring) (E.countMatrix ss)).enum.map
      (fun r => (r.1, nanmean r.2)), e.2.isSome := by
    intro e he
    obtain ⟨r, hr, rfl⟩ := List.mem_map.mp he
    exact nanmean_isSome_of_mem (squareD_diag_mem (snd_mem_of_mem_enum hr))
  have hdef2 : ∀ e ∈ pySortDesc ((squareD (E.dist scoring)
      (E.countMatrix ss)).enum.map (fun r => (r.1, nanmean r.2))),
      e.2.isSome := fun e he =>
    hdef e ((pySortDesc_perm _).mem_iff.mp he)
  refine ⟨_, scoresOf_dist E ss scoring hv hns hm, rfl, hdef, ?_, ?_⟩
  · apply List.pairwise_of_forall_mem_list
    intro a ha b _ hnone
    have := hdef2 a ha
    rw [hnone] at this
    cases this
  · apply List.pairwise_of_forall_mem_list
    intro a ha b _ hnone
    have := hdef2 a ha
    rw [hnone] at this
    cases this

theorem C8_witness :
    miniSk.vocabEmpty ["Cats meow.", "Dogs bark."] = false ∧
    ("cityblock" : String) ≠ "sum" ∧ ("cityblock" : String) ∈ pdistMetrics ∧
    (∃ scores, scoresOf miniSk ["Cats meow.", "Dogs bark."] "cityblock"
        = .ok scores ∧
      scores = (squareD (miniSk.dist "cityblock")
          (miniSk.countMatrix ["Cats meow.", "Dogs bark."])).enum.map
        (fun r => (r.1, nanmean r.2)) ∧
      (∀ e ∈ scores, e.2.isSome) ∧
      (pySortDesc scores).Pairwise (fun x y => x.2 = none → y.2 = none) ∧
      (pySortDesc scores).Pairwise
        (fun x y => x.2 = none → y.2 = none → x.1 < y.1)) :=
  ⟨by decide, by decide, by decide,
    C8_distance_scores miniSk ["Cats meow.", "Dogs bark."] "cityblock"
      (by decide) (by decide) (by decide)⟩

/-- C9: the descending sort orders the score entries by strictly larger
score first with ties broken by smaller original index (by stability over
the index-ascending input), and therefore whenever two entries tie and the
take-`k` budget admits the one with the larger index, it also admits the
one with the smaller index.  The embedding is a pure function of its
inputs, so the output does not depend on any platform property. -/
theorem C9_tie_break (scores : List ScoreEntry) (k : Nat)
    (a b : ScoreEntry)
    (hidx : scores.Pairwise fun x y => x.1 < y.1)
    (hdef : ∀ e ∈ scores, e.2.isSome) :
    (pySortDesc scores).Pairwise scoreGT ∧
    (a ∈ scores → b ∈ scores → a.2 = b.2 → a.1 < b.1 →
      b ∈ (pySortDesc scores).take k → a ∈ (pySortDesc scores).take k) := by
  have hpw := pySortDesc_pairwise scores hidx hdef
  refine ⟨hpw, ?_⟩
  intro ha _ heq hlt hbk
  by_contra hak
  have hamem : a ∈ pySortDesc scores := (pySortDesc_perm scores).mem_iff.mpr ha
  rw [← List.take_append_drop k (pySortDesc scores)] at hamem
  have hadrop : a ∈ (pySortDesc scores).drop k := by
    rcases List.mem_append.mp hamem with h1 | h2
    · exact absurd h1 hak
    · exact h2
  have hgt : scoreGT b a := pairwise_take_drop hpw hbk hadrop
  rcases hgt with hlt2 | ⟨_, hlt2⟩
  · rw [heq, pyLtB_irrefl] at hlt2
    cases hlt2
  · omega

theorem C9_witness :
    ([(0, some 1), (1, some 1)] : List ScoreEntry).Pairwise
      (fun x y => x.1 < y.1) ∧
    (∀ e ∈ ([(0, some 1), (1, some 1)] : List ScoreEntry), e.2.isSome) ∧
    ((pySortDesc [(0, some 1), (1, some 1)]).Pairwise scoreGT ∧
      (((0 : Nat), (some 1 : Option ℚ)) ∈
          ([(0, some 1), (1, some 1)] : List ScoreEntry) →
        ((1 : Nat), (some 1 : Option ℚ)) ∈
          ([(0, some 1), (1, some 1)] : List ScoreEntry) →
        (some 1 : Option ℚ) = some 1 → (0 : Nat) < 1 →
        (1, some 1) ∈ (pySortDesc [(0, some 1), (1, some 1)]).take 1 →
        (0, some 1) ∈ (pySortDesc [(0, some 1), (1, some 1)]).take 1)) :=
  ⟨by decide, by decide,
    C9_tie_break [(0, some 1), (1, some 1)] 1 (0, some 1) (1, some 1)
      (by decide) (by decide)⟩

/-- C10, counterexample to "for every document with at least one
sentence": on a one-sentence document consisting only of stopwords, the
vectorizer's vocabulary is empty and `fit_transform` raises its
empty-vocabulary `ValueError` before the zero-length slice is ever taken,
so `summarize` errors instead of returning the empty string — even though
the specification `0.25` lies in (0, 1) and resolves to `0`. -/
theorem C10_counterexample :
    summarize miniSk ["The of and."] (.float (1/4)) "sum"
      = .error .emptyVocabulary := by decide

/-- C10 as amended: on a document with at least one sentence whose
extracted vocabulary is non-empty (so vectorization succeeds) and a
recognized strategy, a fractional specification in (0, 1) that resolves
to zero sentences makes `summarize` raise nothing and return the empty
string (the empty slice is assembled into an empty text). -/
theorem C10_zero_resolution (E : SklearnModel) (ss : List String)
    (scoring : String) (q : ℚ)
    (_hs : ss ≠ []) (hv : E.vocabEmpty ss = false)
    (hsc : scoring = "sum" ∨ scoring ∈ pdistMetrics)
    (_h0 : 0 < q) (h1 : q < 1) (hr : pyRound (q * ss.length) = 0) :
    summarize E ss (.float q) scoring = .ok "" := by
  have hk : resolveP (.float q) ss.length = .int 0 := by
    rw [resolveP_of_lt1 ss.length (by simp [PyNum.lt1, h1])]
    rw [show (PyNum.float q).toRat = q from rfl, hr]
  obtain ⟨scores, hok, _, _⟩ := scoresOf_ok_structure E ss scoring hv hsc
  have hsel := summarizeSel_ok E ss (.float q) scoring scores hok 0 hk
  unfold summarize
  rw [hsel]
  have htake : (pySortDesc scores).take (sliceLen 0 (pySortDesc scores).length)
      = [] := by
    unfold sliceLen
    norm_num
  rw [htake]
  rfl

theorem C10_witness :
    (["Cats meow."] : List String) ≠ [] ∧
    miniSk.vocabEmpty ["Cats meow."] = false ∧
    (0 : ℚ) < 1/4 ∧ (1/4 : ℚ) < 1 ∧
    pyRound (1/4 * (["Cats meow."] : List String).length) = 0 ∧
    summarize miniSk ["Cats meow."] (.float (1/4)) "sum" = .ok "" :=
  ⟨by decide, by decide, by decide, by decide, by decide,
    C10_zero_resolution miniSk ["Cats meow."] "sum" (1/4) (by decide)
      (by decide) (Or.inl rfl) (by decide) (by decide) (by decide)⟩

end TextSummarizer
